import Mathlib

/-!
Shallow embedding of the sensitivity-analysis engine (`backend/game_logic.py`).

Python floats are modelled as exact rationals (`ℚ`); Python's `round(x, n)`
(round-half-to-even) is modelled by `rhe`/`roundTo`.  Python exceptions
(IndexError, ValueError, ZeroDivisionError) are modelled with
`Except String`.  `np.exp` is transcendental, so functions that use it are
parametrised by an abstract map `E : ℚ → ℚ` standing for the float
exponential; theorems assume only the properties (non-negativity,
positivity at 0) that the float `exp` satisfies.
-/

deriving instance DecidableEq for Except

namespace SensAnalysis

/-- Round half to even of a rational to an integer, as Python's `round`
does on floats.  At an exact half we pick the even neighbour; otherwise
this is rounding to the nearest integer. -/
def rhe (q : ℚ) : ℤ :=
  if Int.fract q = 1 / 2 then (if Even ⌊q⌋ then ⌊q⌋ else ⌊q⌋ + 1) else round q

/-- Python `round(x, n)` on rationals: round `x·10^n` half-to-even, divide back. -/
def roundTo (n : ℕ) (q : ℚ) : ℚ := (rhe (q * 10 ^ n) : ℚ) / 10 ^ n

/-- The five fixed criteria of the engine (`WeightSet` fields in the source). -/
inductive Criterion
  | fuel | safety | tech | service | price
deriving DecidableEq, Repr

/-- The order the source iterates criteria in (`["fuel","safety","tech","service","price"]`). -/
def criteriaList : List Criterion :=
  [Criterion.fuel, Criterion.safety, Criterion.tech, Criterion.service, Criterion.price]

/-- `WeightSet` from the source: one weight per fixed criterion. -/
structure WeightSet where
  fuel : ℚ
  safety : ℚ
  tech : ℚ
  service : ℚ
  price : ℚ
deriving DecidableEq, Repr

/-- The default weights (`WeightSet()` field defaults). -/
def defaultWeights : WeightSet := ⟨3/10, 1/4, 1/5, 3/20, 1/10⟩

/-- `getattr(weights, criterion)`. -/
def WeightSet.getW (w : WeightSet) : Criterion → ℚ
  | Criterion.fuel => w.fuel
  | Criterion.safety => w.safety
  | Criterion.tech => w.tech
  | Criterion.service => w.service
  | Criterion.price => w.price

/-- `setattr(weights, criterion, v)`. -/
def WeightSet.setW (w : WeightSet) : Criterion → ℚ → WeightSet
  | Criterion.fuel, v => ⟨v, w.safety, w.tech, w.service, w.price⟩
  | Criterion.safety, v => ⟨w.fuel, v, w.tech, w.service, w.price⟩
  | Criterion.tech, v => ⟨w.fuel, w.safety, v, w.service, w.price⟩
  | Criterion.service, v => ⟨w.fuel, w.safety, w.tech, v, w.price⟩
  | Criterion.price, v => ⟨w.fuel, w.safety, w.tech, w.service, v⟩

/-- `sum([w.fuel, w.safety, w.tech, w.service, w.price])`. -/
def WeightSet.total (w : WeightSet) : ℚ := w.fuel + w.safety + w.tech + w.service + w.price

/-- The weight list in column order (`weight_values` in `calculate_utility_scores`). -/
def weightValues (w : WeightSet) : List ℚ := [w.fuel, w.safety, w.tech, w.service, w.price]

/-- Dividing every field by the current total, with Python's
`ZeroDivisionError` when the total is zero. -/
def renormalize (w : WeightSet) : Except String WeightSet :=
  if w.total = 0 then Except.error "ZeroDivisionError"
  else Except.ok ⟨w.fuel / w.total, w.safety / w.total, w.tech / w.total,
    w.service / w.total, w.price / w.total⟩

/-- Python names of the criteria. -/
def Criterion.pyName : Criterion → String
  | Criterion.fuel => "fuel"
  | Criterion.safety => "safety"
  | Criterion.tech => "tech"
  | Criterion.service => "service"
  | Criterion.price => "price"

/-- `criterion.title()`. -/
def Criterion.titleName : Criterion → String
  | Criterion.fuel => "Fuel"
  | Criterion.safety => "Safety"
  | Criterion.tech => "Tech"
  | Criterion.service => "Service"
  | Criterion.price => "Price"

/-- `MatrixData` from the source (the string override dict is a key/value list). -/
structure MatrixData where
  rows : ℤ
  cols : ℕ
  rowLabels : List String
  colLabels : List String
  payoffs : List (List ℤ)
  entityAName : String
  entityBName : String
  yourProduct : Option String
  weights : Option (List (String × ℚ))
deriving DecidableEq, Repr

/-- `str.lower()`: lower-case character by character (via the character
list, so that the kernel can evaluate it). -/
def strLower (s : String) : String := String.mk (s.toList.map Char.toLower)

/-- Python-dict insertion `scores[k] = v`: replace the first binding of `k`
in place, else append. -/
def dictInsert (l : List (String × ℚ)) (k : String) (v : ℚ) : List (String × ℚ) :=
  match l with
  | [] => [(k, v)]
  | (k', v') :: t => if k' = k then (k, v) :: t else (k', v') :: dictInsert t k v

/-- `scores[k]` for a key that is present (`0` models the absent-key case,
which the engine never reaches on keys it just inserted). -/
def lookupD (l : List (String × ℚ)) (k : String) : ℚ :=
  match l.find? (fun p => p.1 == k) with
  | some p => p.2
  | none => 0

/-- `sum(data.payoffs[i][j] * weight_values[j] for j in range(data.cols))`,
raising `IndexError` when `j` runs past a row or past the five weights. -/
def dotScore (row : List ℤ) (wv : List ℚ) (cols : ℕ) : Except String ℚ :=
  (List.range cols).foldlM (fun acc j =>
    match row.get? j, wv.get? j with
    | some p, some w => Except.ok (acc + (p : ℚ) * w)
    | _, _ => Except.error "IndexError") 0

/-- `calculate_utility_scores` from the source: per alternative, the dot
product of its payoff row with the weights over `range(cols)`, rounded to
2 decimals, inserted into a dict keyed by the row label. -/
def calculate_utility_scores (data : MatrixData) (w : WeightSet) :
    Except String (List (String × ℚ)) :=
  (List.range data.rowLabels.length).foldlM (fun scores i => do
    let car := data.rowLabels.getD i ""
    match data.payoffs.get? i with
    | none => Except.error "IndexError"
    | some row => do
      let u ← dotScore row (weightValues w) data.cols
      pure (dictInsert scores car (roundTo 2 u))) []

/-- `max(scores.keys(), key=lambda x: scores[x])` scanning tail: Python's
`max` keeps the first maximal element, replacing only on strictly greater. -/
def argmaxGo (k : String) (v : ℚ) : List (String × ℚ) → String
  | [] => k
  | (k', v') :: t => if v < v' then argmaxGo k' v' t else argmaxGo k v t

/-- `max(scores.keys(), key=lambda x: scores[x])`, `ValueError` on an empty dict. -/
def argmaxKey : List (String × ℚ) → Except String String
  | [] => Except.error "ValueError"
  | (k, v) :: t => Except.ok (argmaxGo k v t)

/-- Tipping-point search weight update (`find_tipping_points`):
`new_weight = max(0.01, current_weight + weight_change)` — clamped below
only; the source has no upper clamp here. -/
def tpNewWeight (current d : ℚ) : ℚ := max (1/100) (current + d)

/-- Criteria-sensitivity weight update (`calculate_criteria_sensitivity`):
`new_weight = max(0.01, min(0.50, current_weight + weight_change))`. -/
def csNewWeight (current d : ℚ) : ℚ := max (1/100) (min (1/2) (current + d))

/-- Scenario weight update (`generate_scenario_analysis`):
`new_weight = min(0.50, current_weight + boost)` — clamped above only. -/
def scNewWeight (current boost : ℚ) : ℚ := min (1/2) (current + boost)

/-- One record appended by `find_tipping_points`. -/
structure TippingPoint where
  criterion : String
  weightChange : ℚ
  newWeight : ℚ
  previousLeader : String
  newLeader : String
  scoreChange : ℚ
  marketImpact : String
deriving DecidableEq, Repr

/-- The perturbed weight vector of one tipping-point trial: set the clamped
weight, then renormalize. -/
def tpPerturbed (w : WeightSet) (c : Criterion) (d : ℚ) : Except String WeightSet :=
  renormalize (w.setW c (tpNewWeight (w.getW c) d))

/-- The record appended by `find_tipping_points` for a flipped trial. -/
def tpRec (w : WeightSet) (c : Criterion) (d : ℚ) (base : List (String × ℚ))
    (leader nl : String) (ns : List (String × ℚ)) : TippingPoint :=
  ⟨c.pyName, d, roundTo 3 (tpNewWeight (w.getW c) d), leader, nl,
    roundTo 2 (lookupD ns nl - lookupD base leader),
    c.titleName ++ " importance shifts market leadership"⟩

/-- One `(criterion, weight_change)` trial of `find_tipping_points`: a
record is produced exactly when the perturbed leader differs from the
baseline leader. -/
def tpTrial (data : MatrixData) (w : WeightSet) (base : List (String × ℚ))
    (leader : String) (c : Criterion) (d : ℚ) : Except String (Option TippingPoint) := do
  let tw ← tpPerturbed w c d
  let ns ← calculate_utility_scores data tw
  let nl ← argmaxKey ns
  if nl ≠ leader then
    pure (some (tpRec w c d base leader nl ns))
  else
    pure none

/-- The deltas tested by `find_tipping_points`. -/
def tpDeltas : List ℚ := [-(3/20), -(1/10), -(1/20), 1/20, 1/10, 3/20]

/-- The (criterion, delta) grid in the source's loop order. -/
def tpGrid : List (Criterion × ℚ) :=
  criteriaList.flatMap (fun c => tpDeltas.map (fun d => (c, d)))

/-- `find_tipping_points` from the source. -/
def find_tipping_points (data : MatrixData) (w : WeightSet) :
    Except String (List TippingPoint) := do
  let base ← calculate_utility_scores data w
  let leader ← argmaxKey base
  let opts ← tpGrid.mapM (fun cd => tpTrial data w base leader cd.1 cd.2)
  pure (opts.filterMap id)

/-- Bounds-checked `data.payoffs[i][k]` (`IndexError` out of range). -/
def getPay (data : MatrixData) (i k : ℕ) : Except String ℤ :=
  match data.payoffs.get? i with
  | none => Except.error "IndexError"
  | some row =>
    match row.get? k with
    | none => Except.error "IndexError"
    | some v => Except.ok v

/-- `calculate_competitive_gaps` from the source: for each ordered pair of
rows with different labels, the criterion-averaged payoff difference over
`range(cols)`, rounded to 2 decimals.  (The source stores nested dicts; for
distinct row labels that is exactly this nested association list.) -/
def calculate_competitive_gaps (data : MatrixData) :
    Except String (List (String × List (String × ℚ))) :=
  (List.range data.rowLabels.length).mapM (fun i => do
    let inner ← (List.range data.rowLabels.length).foldlM (fun acc j => do
      if data.rowLabels.getD i "" ≠ data.rowLabels.getD j "" then
        if data.cols = 0 then Except.error "ZeroDivisionError"
        else do
          let s ← (List.range data.cols).foldlM (fun t k => do
            let a ← getPay data i k
            let b ← getPay data j k
            pure (t + ((a : ℚ) - (b : ℚ)))) (0 : ℚ)
          pure (acc ++ [(data.rowLabels.getD j "", roundTo 2 (s / (data.cols : ℚ)))])
      else pure acc) []
    pure (data.rowLabels.getD i "", inner))

/-- Insert into a descending list, before the first element that is not
greater (so equal elements keep their original relative order). -/
def insertDesc (x : ℚ) : List ℚ → List ℚ
  | [] => [x]
  | y :: t => if y ≤ x then x :: y :: t else y :: insertDesc x t

/-- `sorted(vals, reverse=True)` for rationals: stable descending sort
(structural insertion sort, which any stable sort agrees with). -/
def sortedDesc : List ℚ → List ℚ
  | [] => []
  | x :: t => insertDesc x (sortedDesc t)

/-- `assess_market_stability` from the source. -/
def assess_market_stability (baseScores : List (String × ℚ)) (tps : List TippingPoint) : ℚ :=
  if tps = [] then 1
  else
    let changes : ℕ := tps.length
    let ss := sortedDesc (baseScores.map Prod.snd)
    let stability :=
      if 2 ≤ ss.length then min 1 ((ss.getD 0 0 - ss.getD 1 0) / 10) else 1/2
    let vuln := max (1/10) (1 - (changes : ℚ) * (1/10))
    roundTo 3 (stability * vuln)

/-- `max(vals)` with Python's `ValueError` on an empty sequence. -/
def maxValE : List ℚ → Except String ℚ
  | [] => Except.error "ValueError"
  | x :: xs => Except.ok (xs.foldl max x)

/-- `calculate_market_share` from the source, with the float `np.exp`
abstracted as `E`: shift by the maximum score, apply `E`, divide by the
total, scale to percent, round to 1 decimal. -/
def calculate_market_share (E : ℚ → ℚ) (scores : List (String × ℚ)) :
    Except String (List (String × ℚ)) := do
  let m ← maxValE (scores.map Prod.snd)
  let expScores := scores.map (fun p => (p.1, E (p.2 - m)))
  let tot := (expScores.map Prod.snd).sum
  pure (expScores.map (fun p => (p.1, roundTo 1 (p.2 / tot * 100))))

/-- The perturbed weights of one criteria-sensitivity trial. -/
def csPerturbed (w : WeightSet) (c : Criterion) (d : ℚ) : Except String WeightSet :=
  renormalize (w.setW c (csNewWeight (w.getW c) d))

/-- The deltas tested by `calculate_criteria_sensitivity`. -/
def csDeltas : List ℚ := [-(1/5), -(3/20), -(1/10), -(1/20), 1/20, 1/10, 3/20, 1/5]

/-- `calculate_criteria_sensitivity` from the source: per criterion, the
percentage of tested deltas that flip the leader, rounded to 1 decimal. -/
def calculate_criteria_sensitivity (data : MatrixData) (w : WeightSet) :
    Except String (List (String × ℚ)) := do
  let base ← calculate_utility_scores data w
  let leader ← argmaxKey base
  criteriaList.foldlM (fun acc c => do
    let flips ← csDeltas.foldlM (fun cnt d => do
      let tw ← csPerturbed w c d
      let ns ← calculate_utility_scores data tw
      let nl ← argmaxKey ns
      pure (if nl ≠ leader then cnt + 1 else cnt)) (0 : ℕ)
    let pct : ℚ :=
      if 0 < csDeltas.length then (flips : ℚ) / (csDeltas.length : ℚ) * 100 else 0
    pure (dictInsert acc c.pyName (roundTo 1 pct))) []

/-- One record of `generate_scenario_analysis`. -/
structure ScenarioAnalysis where
  scenarioName : String
  newLeader : String
  marketShareShift : List (String × ℚ)
  impactScore : ℚ
deriving DecidableEq, Repr

/-- The fixed scenario catalogue of the source. -/
def scenarioConfigs : List (String × Criterion × ℚ) :=
  [("Safety Focus (+20%)", Criterion.safety, 1/5),
   ("Tech Innovation (+25%)", Criterion.tech, 1/4),
   ("Price Sensitivity (+15%)", Criterion.price, 3/20),
   ("Fuel Economy (+18%)", Criterion.fuel, 9/50),
   ("Service Quality (+12%)", Criterion.service, 3/25)]

/-- The perturbed weights of one scenario trial. -/
def scPerturbed (w : WeightSet) (c : Criterion) (b : ℚ) : Except String WeightSet :=
  renormalize (w.setW c (scNewWeight (w.getW c) b))

/-- `generate_scenario_analysis` from the source. -/
def generate_scenario_analysis (E : ℚ → ℚ) (data : MatrixData) (w : WeightSet) :
    Except String (List ScenarioAnalysis) :=
  scenarioConfigs.mapM (fun cfg => do
    let tw ← scPerturbed w cfg.2.1 cfg.2.2
    let ns ← calculate_utility_scores data tw
    let nl ← argmaxKey ns
    let ms ← calculate_market_share E ns
    let base ← calculate_utility_scores data w
    let bmax ← maxValE (base.map Prod.snd)
    pure (⟨cfg.1, nl, ms, |lookupD ns nl - bmax|⟩ : ScenarioAnalysis))

/-- `StrengthArea` from the source. -/
structure StrengthArea where
  criterion : String
  score : ℤ
  recommendation : String
deriving DecidableEq, Repr

/-- `WeaknessArea` from the source. -/
structure WeaknessArea where
  criterion : String
  score : ℤ
  competitorBest : ℤ
  gap : ℤ
  recommendation : String
deriving DecidableEq, Repr

/-- `InvestmentArea` from the source. -/
structure InvestmentArea where
  criterion : String
  currentScore : ℤ
  targetScore : ℤ
  priority : String
  recommendation : String
deriving DecidableEq, Repr

/-- The strength branch of `identify_strengths_and_investments` for one
criterion: `primary_score >= 8 and primary_score >= max_competitor_score`. -/
def classifyStrength (crit : String) (s best : ℤ) : Option StrengthArea :=
  if 8 ≤ s ∧ best ≤ s then
    some ⟨strLower crit, s, "Leverage your strong " ++ strLower crit ++
      " performance in marketing. You lead competitors here!"⟩
  else none

/-- The weakness branch (the `elif`, so mutually exclusive with strength):
`primary_score < max_competitor_score` and gap at least 1. -/
def classifyWeakness (crit : String) (s best : ℤ) : Option WeaknessArea :=
  if ¬(8 ≤ s ∧ best ≤ s) ∧ s < best ∧ 1 ≤ best - s then
    some ⟨strLower crit, s, best, best - s, "Competitors outscore you by " ++
      toString (best - s) ++ " points in " ++ strLower crit ++ ". Consider improvements."⟩
  else none

/-- The independently evaluated investment branch:
`primary_score < 7 or (max_competitor_score - primary_score) >= 2`. -/
def classifyInvestment (crit : String) (s best : ℤ) : Option InvestmentArea :=
  if s < 7 ∨ 2 ≤ best - s then
    some ⟨strLower crit, s, min 10 (best + 1),
      (if 3 ≤ max 0 (best - s) then "High"
       else if 2 ≤ max 0 (best - s) then "Medium" else "Low"),
      "Invest in " ++ strLower crit ++ " to close the competitive gap"⟩
  else none

/-- Python truthiness of `your_product or data.rowLabels[0]` (an empty
string is falsy). -/
def resolveFocal (yp : Option String) (labels : List String) : String :=
  match yp with
  | some s => if s = "" then labels.headD "" else s
  | none => labels.headD ""

/-- `identify_strengths_and_investments` from the source. -/
def identify_strengths_and_investments (data : MatrixData) (yp : Option String) :
    Except String (List StrengthArea × List WeaknessArea × List InvestmentArea) :=
  if data.rowLabels = [] ∨ data.colLabels = [] then Except.ok ([], [], [])
  else
    let primary := resolveFocal yp data.rowLabels
    let pidx := (data.rowLabels.indexOf? primary).getD 0
    (List.range data.colLabels.length).foldlM (fun acc j => do
      let s ← getPay data pidx j
      let comp ← ((List.range data.rowLabels.length).filter (fun i => i ≠ pidx)).mapM
        (fun i => getPay data i j)
      let best := match comp with
        | [] => (0 : ℤ)
        | x :: xs => xs.foldl max x
      let critName := data.colLabels.getD j ""
      pure (acc.1 ++ (classifyStrength critName s best).toList,
            acc.2.1 ++ (classifyWeakness critName s best).toList,
            acc.2.2 ++ (classifyInvestment critName s best).toList)) ([], [], [])

/-- Fixed-point decimal formatting, Python's `f"{x:.nf}"` (round half to even). -/
def fmtFixed (n : ℕ) (q : ℚ) : String :=
  let r := rhe (q * 10 ^ n)
  let a := r.natAbs
  let fs := toString (a % 10 ^ n)
  (if r < 0 then "-" else "") ++ toString (a / 10 ^ n) ++ "." ++
    String.mk (List.replicate (n - fs.length) '0') ++ fs

/-- `data.rowLabels[0]` with `IndexError` on an empty list. -/
def headE : List String → Except String String
  | [] => Except.error "IndexError"
  | h :: _ => Except.ok h

/-- Insertion step for the keyed descending sort below. -/
def insertByValDesc (p : String × ℚ) : List (String × ℚ) → List (String × ℚ)
  | [] => [p]
  | q :: t => if q.2 ≤ p.2 then p :: q :: t else q :: insertByValDesc p t

/-- `sorted(base_scores.items(), key=..., reverse=True)`: stable sort by
value, descending (insertion sort, agreeing with any stable sort). -/
def sortedByValDesc : List (String × ℚ) → List (String × ℚ)
  | [] => []
  | p :: t => insertByValDesc p (sortedByValDesc t)

/-- The dict returned by `analyze_your_product`, as a record. -/
structure YourProductAnalysis where
  yourProduct : String
  yourScore : ℚ
  yourShare : ℚ
  yourRank : ℕ
  totalProducts : ℕ
  position : String
  positionDetail : String
  marketLeader : String
  gapToLeader : ℚ
  aheadOf : List String
  behind : List String
  isLeader : Bool
deriving DecidableEq, Repr

/-- `analyze_your_product` from the source. -/
def analyze_your_product (data : MatrixData) (base ms : List (String × ℚ))
    (yourProduct : String) : Except String YourProductAnalysis := do
  let yp ← match data.rowLabels.indexOf? yourProduct with
    | some _ => pure yourProduct
    | none => headE data.rowLabels
  let yscore := lookupD base yp
  let yshare := lookupD ms yp
  let sorted := sortedByValDesc base
  let yrank := match sorted.findIdx? (fun p => p.1 == yp) with
    | some i => i + 1
    | none => 1
  match sorted with
  | [] => Except.error "IndexError"
  | leader :: _ =>
    let gap := if leader.1 ≠ yp then leader.2 - yscore else 0
    let posDetail :=
      if yrank = 1 then
        ("Market Leader", yp ++ " currently leads the market with " ++
          fmtFixed 1 yshare ++ "% predicted share.")
      else if yrank = 2 then
        ("Strong Challenger", yp ++ " is the #2 player, " ++ fmtFixed 2 gap ++
          " points behind " ++ leader.1 ++ ".")
      else
        ("Competitive Underdog", yp ++ " ranks #" ++ toString yrank ++
          ", needs strategic improvements to compete.")
    pure ⟨yp, yscore, yshare, yrank, data.rowLabels.length, posDetail.1, posDetail.2,
      leader.1, gap,
      (base.filter (fun p => decide (p.2 < yscore ∧ p.1 ≠ yp))).map Prod.fst,
      (base.filter (fun p => decide (yscore < p.2 ∧ p.1 ≠ yp))).map Prod.fst,
      decide (yrank = 1)⟩

/-- `ProductContext` from the source. -/
structure ProductContext where
  primary_product : String
  segment : String
  competitors : String
deriving DecidableEq, Repr

/-- Character-list prefix test (used for the substring test below). -/
def listPfx : List Char → List Char → Bool
  | [], _ => true
  | _ :: _, [] => false
  | a :: as, b :: bs => a == b && listPfx as bs

/-- Character-list substring occurrence test. -/
def listInf (sub : List Char) : List Char → Bool
  | [] => listPfx sub []
  | b :: bs => listPfx sub (b :: bs) || listInf sub bs

/-- Python's `sub in s` on strings. -/
def strContainsSub (s sub : String) : Bool := listInf sub.toList s.toList

/-- `detect_product_context` from the source (keyword lookup of company /
segment names; an unmatched pair falls through to the default context). -/
def detect_product_context (entityName marketSegment : String)
    (yourProduct : Option String) : ProductContext :=
  let el := strLower entityName
  let sl := strLower marketSegment
  let primary := match yourProduct with
    | some s => if s = "" then "Main Product" else s
    | none => "Main Product"
  let dflt : ProductContext := ⟨primary, marketSegment, "Competitor A, Competitor B"⟩
  if strContainsSub el "maruti" || strContainsSub el "suzuki" then
    if strContainsSub sl "compact" || strContainsSub sl "car" then
      ⟨primary, "Compact Car Segment", "Polo, i20"⟩
    else dflt
  else if strContainsSub el "apple" then
    if strContainsSub sl "smartphone" || strContainsSub sl "mobile" then
      ⟨primary, "Premium Smartphone Market", "Galaxy S, Pixel"⟩
    else dflt
  else if strContainsSub el "tesla" then
    if strContainsSub sl "electric" || strContainsSub sl "ev" then
      ⟨primary, "Electric Vehicle Market", "Polestar 2, BMW i4"⟩
    else dflt
  else if strContainsSub el "samsung" then
    if strContainsSub sl "smartphone" then
      ⟨primary, "Android Smartphone Market", "iPhone, Pixel"⟩
    else dflt
  else if strContainsSub el "google" then
    if strContainsSub sl "smartphone" then
      ⟨primary, "Android Premium Market", "Galaxy S, OnePlus"⟩
    else dflt
  else dflt

/-- `ConfidenceMetrics` from the source. -/
structure ConfidenceMetrics where
  overallScore : ℚ
  dataQuality : ℚ
  modelReliability : ℚ
  marketStability : ℚ
  predictionAccuracy : ℚ
deriving DecidableEq, Repr

/-- `np.var` (population variance) of the flattened payoff entries;
`0` stands for numpy's NaN on an empty array, which the engine only
reaches on an empty payoff matrix. -/
def npVar (l : List ℤ) : ℚ :=
  if l.length = 0 then 0
  else
    let n : ℚ := (l.length : ℚ)
    let m := (l.map (fun x => (x : ℚ))).sum / n
    ((l.map (fun x => ((x : ℚ) - m) ^ 2)).sum) / n

/-- `calculate_confidence_metrics` from the source; the `results` dict is
passed as its two used components (base scores and tipping-point count). -/
def calculate_confidence_metrics (data : MatrixData) (baseScores : List (String × ℚ))
    (tipCount : ℕ) : ConfidenceMetrics :=
  let dq := min 100 (60 + npVar (data.payoffs.flatten) / 10 * 40)
  let mr := min 100 (50 + ((data.rows : ℚ) * (data.cols : ℚ) * 2))
  let mst := max 20 (100 - ((tipCount : ℚ) * 15))
  let vals := baseScores.map Prod.snd
  let pa :=
    if 2 ≤ vals.length then
      let ss := sortedDesc vals
      min 100 (50 + (ss.getD 0 0 - ss.getD 1 0) * 10)
    else (75 : ℚ)
  let overall := dq * (1/4) + mr * (1/5) + mst * (3/10) + pa * (1/4)
  ⟨roundTo 1 overall, roundTo 1 dq, roundTo 1 mr, roundTo 1 mst, roundTo 1 pa⟩

/-- The risk-assessment dict assembled by `solve_game`. -/
structure RiskAssessment where
  level : String
  factors : List String
  recommendation : String
deriving DecidableEq, Repr

/-- `SensitivityResults` from the source. -/
structure SensitivityResults where
  baseScores : List (String × ℚ)
  optimalChoice : String
  marketShare : List (String × ℚ)
  tippingPoints : List TippingPoint
  riskAssessment : RiskAssessment
  stabilityIndex : ℚ
  competitiveGaps : List (String × List (String × ℚ))
  productContext : ProductContext
  confidenceMetrics : ConfidenceMetrics
  criteriaSensitivity : List (String × ℚ)
  scenarioAnalysis : List ScenarioAnalysis
  strengths : List StrengthArea
  weaknesses : List WeaknessArea
  investmentAreas : List InvestmentArea
  yourProductAnalysis : YourProductAnalysis
deriving DecidableEq, Repr

/-- `d.get(k, dflt)` on the override dict. -/
def dictGet (l : List (String × ℚ)) (k : String) (dflt : ℚ) : ℚ :=
  match l.find? (fun p => p.1 == k) with
  | some p => p.2
  | none => dflt

/-- The weight resolution at the top of `solve_game`: a non-empty override
dict supplies each weight (with per-key defaults); otherwise the defaults
are used.  The override is adopted as-is — never validated or normalized.
(The source's `elif` branch for an attribute-style `WeightSet` object also
adopts the caller's weights verbatim, so it has the same semantics.) -/
def resolveWeights (w? : Option (List (String × ℚ))) : WeightSet :=
  match w? with
  | some l =>
    if l = [] then defaultWeights
    else ⟨dictGet l "fuel" (3/10), dictGet l "safety" (1/4), dictGet l "tech" (1/5),
      dictGet l "service" (3/20), dictGet l "price" (1/10)⟩
  | none => defaultWeights

/-- `solve_game` from the source: the analysis entry point. -/
def solve_game (E : ℚ → ℚ) (data : MatrixData) : Except String SensitivityResults := do
  let bw := resolveWeights data.weights
  let base ← calculate_utility_scores data bw
  let optimal ← argmaxKey base
  let ms ← calculate_market_share E base
  let tps ← find_tipping_points data bw
  let gaps ← calculate_competitive_gaps data
  let stability := assess_market_stability base tps
  let yp ← match data.yourProduct with
    | some s => if s = "" then headE data.rowLabels else pure s
    | none => headE data.rowLabels
  let ctx := detect_product_context data.entityAName data.entityBName (some yp)
  let conf := calculate_confidence_metrics data base tps.length
  let cs ← calculate_criteria_sensitivity data bw
  let scen ← generate_scenario_analysis E data bw
  let swi ← identify_strengths_and_investments data (some yp)
  let ypa ← analyze_your_product data base ms yp
  let f1 : List String :=
    if stability < 7/10 then ["Market position vulnerable to weight shifts"] else []
  let f2 : List String :=
    if 5 < tps.length then ["Multiple sensitivity points detected"] else []
  let leaderScore := lookupD base optimal
  let second ← match (sortedDesc (base.map Prod.snd)).get? 1 with
    | some v => pure v
    | none => Except.error "IndexError"
  let f3 : List String :=
    if leaderScore - second < 2 then ["Narrow competitive advantage"] else []
  let factors := f1 ++ f2 ++ f3
  let level :=
    if 2 ≤ factors.length then "High"
    else if factors.length = 1 then "Medium" else "Low"
  let recomm :=
    if 0 < factors.length then "Focus on strengthening weak criteria"
    else "Maintain current strategy"
  pure ⟨base, optimal, ms, tps, ⟨level, factors, recomm⟩, stability, gaps, ctx, conf,
    cs, scen, swi.1, swi.2.1, swi.2.2, ypa⟩

/-! ### Arithmetic facts about the rounding primitive -/

theorem floor_le_rhe (q : ℚ) : ⌊q⌋ ≤ rhe q := by
  unfold rhe
  split
  · split
    · exact le_refl _
    · omega
  · rw [round_eq]
    exact Int.floor_le_floor (by linarith)

theorem rhe_nonneg {q : ℚ} (h : 0 ≤ q) : 0 ≤ rhe q :=
  le_trans (Int.floor_nonneg.mpr h) (floor_le_rhe q)

theorem le_rhe_of_le {n : ℤ} {q : ℚ} (h : (n : ℚ) ≤ q) : n ≤ rhe q :=
  le_trans (Int.le_floor.mpr h) (floor_le_rhe q)

theorem rhe_le_of_le {n : ℤ} {q : ℚ} (h : q ≤ (n : ℚ)) : rhe q ≤ n := by
  unfold rhe
  split
  · rename_i htie
    have hq : q = (⌊q⌋ : ℚ) + 1/2 := by
      have := Int.fract_add_floor q
      rw [htie] at this
      linarith
    have hfl : ⌊q⌋ + 1 ≤ n := by
      have h1 : (⌊q⌋ : ℚ) < (n : ℚ) := by linarith
      exact_mod_cast h1
    split <;> omega
  · rw [round_eq]
    have h1 : ⌊q + 1/2⌋ ≤ ⌊(n : ℚ) + 1/2⌋ := Int.floor_le_floor (by linarith)
    have heq : ⌊(n : ℚ) + 1/2⌋ = n := by
      rw [Int.floor_eq_iff]
      push_cast
      constructor <;> linarith
    omega

theorem abs_rhe_sub (q : ℚ) : |(rhe q : ℚ) - q| ≤ 1/2 := by
  unfold rhe
  split
  · rename_i htie
    have hq : q = (⌊q⌋ : ℚ) + 1/2 := by
      have := Int.fract_add_floor q
      rw [htie] at this
      linarith
    split
    · rw [abs_le]
      constructor <;> linarith
    · rw [abs_le]
      push_cast
      constructor <;> linarith
  · rw [abs_sub_comm]
    exact abs_sub_round q

theorem rhe_intCast (z : ℤ) : rhe (z : ℚ) = z := by
  unfold rhe
  rw [Int.fract_intCast]
  norm_num

theorem fract_half : Int.fract ((1:ℚ)/2) = 1/2 :=
  Int.fract_eq_self.mpr ⟨by norm_num, by norm_num⟩

theorem floor_half : ⌊(1:ℚ)/2⌋ = 0 := by
  rw [Int.floor_eq_zero_iff]
  constructor <;> norm_num

theorem rhe_tie (z : ℤ) : rhe ((z:ℚ) + 1/2) = if Even z then z else z + 1 := by
  have hfr : Int.fract ((z:ℚ) + 1/2) = 1/2 := by
    rw [Int.fract_int_add, fract_half]
  have hfl : ⌊(z:ℚ) + 1/2⌋ = z := by
    rw [Int.floor_int_add, floor_half, add_zero]
  unfold rhe
  rw [hfr, hfl, if_pos rfl]

theorem round_neg_of_fract_ne {q : ℚ} (h : Int.fract q ≠ 1/2) : round (-q) = -round q := by
  rcases eq_or_ne (Int.fract q) 0 with h0 | h0
  · have hq : q = (⌊q⌋ : ℚ) := by
      have := Int.fract_add_floor q
      rw [h0] at this
      linarith
    rw [hq, ← Int.cast_neg, round_intCast, round_intCast]
  · have hfb : 0 < Int.fract q := lt_of_le_of_ne (Int.fract_nonneg q) (Ne.symm h0)
    have hfu : Int.fract q < 1 := Int.fract_lt_one q
    have hq : q = (⌊q⌋ : ℚ) + Int.fract q := by
      have := Int.fract_add_floor q
      linarith
    rw [round_eq, round_eq]
    rcases lt_or_gt_of_ne h with hlt | hgt
    · have e1 : ⌊q + 1/2⌋ = ⌊q⌋ := by
        rw [Int.floor_eq_iff]
        push_cast
        constructor <;> linarith
      have e2 : ⌊-q + 1/2⌋ = -⌊q⌋ := by
        rw [Int.floor_eq_iff]
        push_cast
        constructor <;> linarith
      rw [e1, e2]
    · have e1 : ⌊q + 1/2⌋ = ⌊q⌋ + 1 := by
        rw [Int.floor_eq_iff]
        push_cast
        constructor <;> linarith
      have e2 : ⌊-q + 1/2⌋ = -⌊q⌋ - 1 := by
        rw [Int.floor_eq_iff]
        push_cast
        constructor <;> linarith
      rw [e1, e2]
      ring

theorem rhe_neg (q : ℚ) : rhe (-q) = -rhe q := by
  rcases eq_or_ne (Int.fract q) 0 with h0 | h0
  · have hq : q = (⌊q⌋ : ℚ) := by
      have := Int.fract_add_floor q
      rw [h0] at this
      linarith
    rw [hq, ← Int.cast_neg, rhe_intCast, rhe_intCast]
  · rcases eq_or_ne (Int.fract q) (1/2) with htie | htie
    · obtain ⟨z, hz⟩ : ∃ z : ℤ, ⌊q⌋ = z := ⟨⌊q⌋, rfl⟩
      have hq : q = (z : ℚ) + 1/2 := by
        have := Int.fract_add_floor q
        rw [htie, hz] at this
        linarith
      have h2 : -q = ((-z - 1 : ℤ) : ℚ) + 1/2 := by
        rw [hq]
        push_cast
        ring
      rw [h2, hq, rhe_tie, rhe_tie]
      by_cases he : Even z
      · have h1 : ¬ Even (-z - 1) := by
          rw [Int.even_iff] at *
          omega
        simp only [if_pos he, if_neg h1]
        omega
      · have h1 : Even (-z - 1) := by
          rcases Int.even_or_odd z with h | ⟨k, hk⟩
          · exact absurd h he
          · exact ⟨-k - 1, by omega⟩
        simp only [if_neg he, if_pos h1]
        omega
    · have htie2 : Int.fract (-q) ≠ 1/2 := by
        rw [Int.fract_neg h0]
        intro hc
        exact htie (by linarith)
      unfold rhe
      rw [if_neg htie2, if_neg htie]
      exact round_neg_of_fract_ne htie

theorem roundTo_nonneg (n : ℕ) {q : ℚ} (h : 0 ≤ q) : 0 ≤ roundTo n q := by
  unfold roundTo
  apply div_nonneg _ (by positivity)
  exact_mod_cast rhe_nonneg (by positivity)

theorem roundTo_le_of_le (n : ℕ) (m : ℤ) {q : ℚ} (h : q * 10 ^ n ≤ (m : ℚ)) :
    roundTo n q ≤ (m : ℚ) / 10 ^ n := by
  unfold roundTo
  apply div_le_div_of_nonneg_right _ (by positivity)
  exact_mod_cast rhe_le_of_le h

theorem roundTo_neg (n : ℕ) (q : ℚ) : roundTo n (-q) = -roundTo n q := by
  unfold roundTo
  rw [neg_mul, rhe_neg]
  push_cast
  ring

theorem abs_roundTo_sub (n : ℕ) (q : ℚ) : |roundTo n q - q| ≤ 1 / (2 * 10 ^ n) := by
  unfold roundTo
  have h10 : (0 : ℚ) < 10 ^ n := by positivity
  have h := abs_rhe_sub (q * 10 ^ n)
  have h2 : |(rhe (q * 10 ^ n) : ℚ) / 10 ^ n - q| =
      |(rhe (q * 10 ^ n) : ℚ) - q * 10 ^ n| / 10 ^ n := by
    rw [← abs_of_pos h10, ← abs_div]
    congr 1
    field_simp
    ring
  rw [h2, div_le_div_iff h10 (by positivity)]
  calc |(rhe (q * 10 ^ n) : ℚ) - q * 10 ^ n| * (2 * 10 ^ n)
      ≤ (1/2) * (2 * 10 ^ n) := mul_le_mul_of_nonneg_right h (by positivity)
    _ = 1 * 10 ^ n := by ring

/-! ### Sorting and renormalization facts -/

theorem mem_insertDesc {z x : ℚ} {l : List ℚ} :
    z ∈ insertDesc x l ↔ z = x ∨ z ∈ l := by
  induction l with
  | nil => simp [insertDesc]
  | cons y t ih =>
    unfold insertDesc
    split
    · simp
    · simp only [List.mem_cons, ih]
      tauto

theorem pairwise_insertDesc {x : ℚ} {l : List ℚ}
    (h : l.Pairwise (fun a b => b ≤ a)) :
    (insertDesc x l).Pairwise (fun a b => b ≤ a) := by
  induction l with
  | nil => simp [insertDesc]
  | cons y t ih =>
    rcases List.pairwise_cons.mp h with ⟨hy, ht⟩
    unfold insertDesc
    split
    · rename_i hle
      refine List.pairwise_cons.mpr ⟨?_, h⟩
      intro z hz
      rcases List.mem_cons.mp hz with rfl | hz
      · exact hle
      · exact le_trans (hy z hz) hle
    · rename_i hgt
      refine List.pairwise_cons.mpr ⟨?_, ih ht⟩
      intro z hz
      rcases mem_insertDesc.mp hz with rfl | hz
      · exact le_of_not_le hgt
      · exact hy z hz

theorem sortedDesc_pairwise (l : List ℚ) :
    (sortedDesc l).Pairwise (fun a b => b ≤ a) := by
  induction l with
  | nil => exact List.Pairwise.nil
  | cons x t ih => exact pairwise_insertDesc ih

theorem sortedDesc_head_ge {l : List ℚ} (h : 2 ≤ (sortedDesc l).length) :
    (sortedDesc l).getD 1 0 ≤ (sortedDesc l).getD 0 0 := by
  have hp := sortedDesc_pairwise l
  rcases hss : sortedDesc l with _ | ⟨a, _ | ⟨b, t⟩⟩
  · rw [hss] at h; simp at h
  · rw [hss] at h; simp at h
  · rw [hss] at hp
    have := (List.pairwise_cons.mp hp).1 b (by simp)
    simpa using this

theorem renormalize_ok_total {w w' : WeightSet} (h : renormalize w = Except.ok w') :
    w'.total = 1 := by
  unfold renormalize at h
  split at h
  · exact absurd h (by simp)
  · rename_i h0
    injection h with h2
    rw [← h2]
    show w.fuel / w.total + w.safety / w.total + w.tech / w.total +
      w.service / w.total + w.price / w.total = 1
    rw [div_add_div_same, div_add_div_same, div_add_div_same, div_add_div_same]
    exact div_self h0

/-! ### Generic facts about `Except`-valued folds and maps -/

theorem except_bind_ok {α β : Type} (a : α) (g : α → Except String β) :
    (Except.ok a >>= g) = g a := rfl

theorem except_bind_err {α β : Type} (e : String) (g : α → Except String β) :
    ((Except.error e : Except String α) >>= g) = Except.error e := rfl

theorem except_pure_eq {α : Type} (a : α) : (pure a : Except String α) = Except.ok a := rfl

theorem foldlM_except_ok {β γ : Type} (f : β → γ → Except String β) (g : β → γ → β)
    (l : List γ) (h : ∀ b : β, ∀ x ∈ l, f b x = Except.ok (g b x)) (b : β) :
    l.foldlM f b = Except.ok (l.foldl g b) := by
  induction l generalizing b with
  | nil => rfl
  | cons x xs ih =>
    have hx := h b x (by simp)
    simp only [List.foldlM, List.foldl]
    rw [hx]
    exact ih (fun b' y hy => h b' y (by simp [hy])) (g b x)

theorem mapM'_except_ok {α β : Type} (f : α → Except String β) (g : α → β)
    (l : List α) (h : ∀ x ∈ l, f x = Except.ok (g x)) :
    List.mapM' f l = Except.ok (l.map g) := by
  induction l with
  | nil => rfl
  | cons x xs ih =>
    simp only [List.mapM', List.map]
    rw [h x (by simp), ih (fun y hy => h y (by simp [hy]))]
    rfl

theorem mapM_except_ok {α β : Type} (f : α → Except String β) (g : α → β)
    (l : List α) (h : ∀ x ∈ l, f x = Except.ok (g x)) :
    l.mapM f = Except.ok (l.map g) := by
  rw [← List.mapM'_eq_mapM]
  exact mapM'_except_ok f g l h

theorem mapM'_except_ok_inv {α β : Type} {f : α → Except String β}
    {l : List α} {ys : List β} (h : List.mapM' f l = Except.ok ys) :
    List.Forall₂ (fun x y => f x = Except.ok y) l ys := by
  induction l generalizing ys with
  | nil =>
    simp only [List.mapM'] at h
    cases h
    exact List.Forall₂.nil
  | cons x xs ih =>
    simp only [List.mapM'] at h
    rcases hx : f x with e | b
    · rw [hx, except_bind_err] at h
      exact absurd h (by intro hc; cases hc)
    · rw [hx, except_bind_ok] at h
      rcases hxs : List.mapM' f xs with e | bs
      · rw [hxs, except_bind_err] at h
        exact absurd h (by intro hc; cases hc)
      · rw [hxs, except_bind_ok, except_pure_eq] at h
        injection h with h2
        rw [← h2]
        exact List.Forall₂.cons hx (ih hxs)

theorem mapM_except_ok_inv {α β : Type} {f : α → Except String β}
    {l : List α} {ys : List β} (h : l.mapM f = Except.ok ys) :
    List.Forall₂ (fun x y => f x = Except.ok y) l ys := by
  rw [← List.mapM'_eq_mapM] at h
  exact mapM'_except_ok_inv h

/-! ### Pure counterparts of the scorer (used to exhibit successful runs) -/

/-- `data.payoffs[i][k]` under the in-bounds invariant (`0` out of range). -/
def pay (data : MatrixData) (i k : ℕ) : ℤ := (data.payoffs.getD i []).getD k 0

/-- The dot product computed by `calculate_utility_scores` for row `i`,
as a total function. -/
def utilPure (data : MatrixData) (w : WeightSet) (i : ℕ) : ℚ :=
  (List.range data.cols).foldl
    (fun acc j => acc + ((pay data i j : ℚ) * (weightValues w).getD j 0)) 0

/-- The score dict built by `calculate_utility_scores`, as a total function. -/
def scoresPure (data : MatrixData) (w : WeightSet) : List (String × ℚ) :=
  (List.range data.rowLabels.length).foldl
    (fun scores i =>
      dictInsert scores (data.rowLabels.getD i "") (roundTo 2 (utilPure data w i))) []

theorem dotScore_ok {row : List ℤ} {wv : List ℚ} {cols : ℕ}
    (h1 : cols ≤ row.length) (h2 : cols ≤ wv.length) :
    dotScore row wv cols = Except.ok
      ((List.range cols).foldl (fun acc j => acc + ((row.getD j 0 : ℚ) * wv.getD j 0)) 0) := by
  apply foldlM_except_ok
  intro b j hj
  have hj' : j < cols := List.mem_range.mp hj
  have hr : row.get? j = some (row.getD j 0) := by
    simp [List.getD_eq_getElem?_getD, List.getElem?_eq_getElem (lt_of_lt_of_le hj' h1)]
  have hw : wv.get? j = some (wv.getD j 0) := by
    simp [List.getD_eq_getElem?_getD, List.getElem?_eq_getElem (lt_of_lt_of_le hj' h2)]
  rw [hr, hw]

theorem calculate_utility_scores_ok (data : MatrixData) (w : WeightSet)
    (hlen : data.rowLabels.length ≤ data.payoffs.length)
    (hrow : ∀ row ∈ data.payoffs, data.cols ≤ row.length)
    (hc5 : data.cols ≤ 5) :
    calculate_utility_scores data w = Except.ok (scoresPure data w) := by
  apply foldlM_except_ok
  intro scores i hi
  have hi' : i < data.rowLabels.length := List.mem_range.mp hi
  have hip : i < data.payoffs.length := lt_of_lt_of_le hi' hlen
  have hpay : data.payoffs.get? i = some (data.payoffs.getD i []) := by
    simp [List.getD_eq_getElem?_getD, List.getElem?_eq_getElem hip]
  rw [hpay]
  dsimp only
  have hmem : data.payoffs.getD i [] ∈ data.payoffs := by
    simp only [List.getD_eq_getElem?_getD, List.getElem?_eq_getElem hip, Option.getD_some]
    exact List.getElem_mem hip
  have hci : data.cols ≤ (data.payoffs.getD i []).length := hrow _ hmem
  have hwv : data.cols ≤ (weightValues w).length := by
    simpa [weightValues] using hc5
  rw [dotScore_ok hci hwv]
  rfl

/-! ### Concrete decision matrices used as fixtures -/

/-- A well-formed matrix with a single alternative. -/
def dSolo : MatrixData := ⟨1, 5, ["Solo"], ["Fuel", "Safety", "Tech", "Service", "Price"],
  [[5, 5, 5, 5, 5]], "Acme", "Widgets", none, none⟩

/-- A well-formed 2×5 matrix whose leadership flips under several
weight perturbations. -/
def dFlip : MatrixData := ⟨2, 5, ["Alpha", "Beta"], ["Fuel", "Safety", "Tech", "Service", "Price"],
  [[9, 5, 5, 5, 5], [5, 9, 5, 5, 5]], "Acme", "Widgets", none, none⟩

/-- A malformed matrix: two column labels but five-entry payoff rows
(and five default weights against the declared two criteria). -/
def dMismatch : MatrixData := ⟨2, 2, ["A", "B"], ["C1", "C2"],
  [[1, 2, 3, 4, 5], [5, 4, 3, 2, 1]], "X", "Y", none, none⟩

/-- A malformed matrix with a jagged second row, shorter than `cols`. -/
def dJagged : MatrixData := ⟨2, 5, ["A", "B"], ["Fuel", "Safety", "Tech", "Service", "Price"],
  [[5, 5, 5, 5, 5], [1, 2]], "X", "Y", none, none⟩

/-! ### C1 -/

/-- C1: with a single alternative the entry point does NOT degrade
gracefully — `solve_game` raises an uncaught IndexError at
`sorted(base_scores.values(), reverse=True)[1]` while assembling the risk
factors, so no `AnalysisResult` is returned at all. -/
theorem solve_game_single_alternative_error :
    solve_game (fun _ => 1) dSolo = Except.error "IndexError" := by
  with_unfolding_all decide

/-! ### C2 -/

/-- C2 counterexample: in the tipping-point search the pre-renormalization
weight is `max(0.01, w + delta)` with no upper clamp, so a baseline weight
of 0.40 (reachable through the caller's weight override) perturbed by the
grid delta +0.15 becomes 0.55 > 0.50, refuting the claimed
`clamp(·, 0.01, 0.50)`. -/
theorem tp_upper_clamp_missing :
    (Criterion.fuel, 3/20) ∈ tpGrid ∧
    (resolveWeights (some [("fuel", 2/5), ("safety", 1/4), ("tech", 1/5),
      ("service", 3/20), ("price", 1/100)])).getW Criterion.fuel = 2/5 ∧
    tpNewWeight (2/5) (3/20) = 11/20 ∧ ¬ tpNewWeight (2/5) (3/20) ≤ 1/2 := by
  with_unfolding_all decide

/-- C2 (amended): tipping-point trials clamp only below at 0.01,
criteria-sensitivity trials clamp to [0.01, 0.50], scenario trials clamp
only above at 0.50, and every renormalization divides each weight by the
new total so the weights sum to 1 again. -/
theorem perturb_clamp_spec :
    (∀ c d : ℚ, 1/100 ≤ tpNewWeight c d) ∧
    (∀ c d : ℚ, 1/100 ≤ csNewWeight c d ∧ csNewWeight c d ≤ 1/2) ∧
    (∀ c b : ℚ, scNewWeight c b ≤ 1/2) ∧
    (∀ w tw : WeightSet, renormalize w = Except.ok tw → tw.total = 1) := by
  refine ⟨fun c d => le_max_left _ _,
    fun c d => ⟨le_max_left _ _, max_le (by norm_num) (min_le_left _ _)⟩,
    fun c b => min_le_left _ _,
    fun w tw h => renormalize_ok_total h⟩

/-- Witness for the amended C2 statement at concrete inputs. -/
theorem perturb_clamp_spec_witness :
    1/100 ≤ tpNewWeight (3/10) (3/20) ∧
    (1/100 ≤ csNewWeight (3/10) (3/20) ∧ csNewWeight (3/10) (3/20) ≤ 1/2) ∧
    scNewWeight (3/10) (3/20) ≤ 1/2 ∧
    defaultWeights.total = 1 :=
  ⟨perturb_clamp_spec.1 (3/10) (3/20),
   perturb_clamp_spec.2.1 (3/10) (3/20),
   perturb_clamp_spec.2.2.1 (3/10) (3/20),
   perturb_clamp_spec.2.2.2 defaultWeights defaultWeights (by with_unfolding_all decide)⟩

/-! ### C6 -/

/-- An override dict in which every weight is 0.5. -/
def overHalf : List (String × ℚ) :=
  [("fuel", 1/2), ("safety", 1/2), ("tech", 1/2), ("service", 1/2), ("price", 1/2)]

/-- C6 counterexample: a caller-supplied override is adopted verbatim —
this baseline sums to 2.5, not 1, and is used unrenormalized. -/
theorem override_weights_unnormalized :
    (resolveWeights (some overHalf)).total = 5/2 ∧ ((5:ℚ)/2 ≠ 1) := by
  with_unfolding_all decide

/-- C6 (amended): the default baseline weights are non-negative and sum
to 1, and every perturb-and-renormalize step (in all three searches)
yields a weight vector summing to exactly 1; but an explicit override is
used as-is and need not satisfy either property. -/
theorem baseline_and_renorm_sums :
    (0 ≤ defaultWeights.fuel ∧ 0 ≤ defaultWeights.safety ∧ 0 ≤ defaultWeights.tech ∧
      0 ≤ defaultWeights.service ∧ 0 ≤ defaultWeights.price ∧ defaultWeights.total = 1) ∧
    (∀ w c d tw, tpPerturbed w c d = Except.ok tw → tw.total = 1) ∧
    (∀ w c d tw, csPerturbed w c d = Except.ok tw → tw.total = 1) ∧
    (∀ w c b tw, scPerturbed w c b = Except.ok tw → tw.total = 1) := by
  refine ⟨⟨by norm_num [defaultWeights], by norm_num [defaultWeights],
      by norm_num [defaultWeights], by norm_num [defaultWeights],
      by norm_num [defaultWeights], by norm_num [defaultWeights, WeightSet.total]⟩,
    fun w c d tw h => renormalize_ok_total h,
    fun w c d tw h => renormalize_ok_total h,
    fun w c b tw h => renormalize_ok_total h⟩

/-- The renormalized vector of a concrete tipping-point trial. -/
def wRenormWit : WeightSet := ⟨1/3, 5/21, 4/21, 1/7, 2/21⟩

/-- Witness for the amended C6 statement at concrete inputs. -/
theorem baseline_and_renorm_sums_witness :
    defaultWeights.total = 1 ∧
    wRenormWit.total = 1 :=
  ⟨baseline_and_renorm_sums.1.2.2.2.2.2,
   baseline_and_renorm_sums.2.1 defaultWeights Criterion.fuel (1/20) wRenormWit
     (by with_unfolding_all decide)⟩

/-! ### C3 -/

/-- C3 counterexample: a matrix whose column-label count (2) differs from
its row length (5), with the five fixed weights against two declared
criteria, is not rejected: the scorer silently computes over the first
two columns and the entry point returns a full result. -/
theorem shape_mismatch_not_rejected :
    dMismatch.colLabels.length = 2 ∧ dMismatch.cols = 2 ∧
    (∀ row ∈ dMismatch.payoffs, row.length = 5) ∧
    calculate_utility_scores dMismatch defaultWeights =
      Except.ok [("A", 4/5), ("B", 5/2)] ∧
    (solve_game (fun _ => 1) dMismatch).isOk = true := by
  with_unfolding_all decide

/-- C3 (amended): the engine performs no input-shape validation at all.
Whenever the declared column count stays within each payoff row and the
five fixed weights, the scorer succeeds — regardless of any disagreement
between `rows`, `cols`, the label lists and the matrix — and a
genuinely out-of-range shape (a jagged row) fails with an `IndexError`
raised mid-computation, not with a prior input-validation error. -/
theorem no_shape_validation :
    (∀ (data : MatrixData) (w : WeightSet),
        data.rowLabels.length ≤ data.payoffs.length →
        (∀ row ∈ data.payoffs, data.cols ≤ row.length) →
        data.cols ≤ 5 →
        ∃ scores, calculate_utility_scores data w = Except.ok scores) ∧
    calculate_utility_scores dJagged defaultWeights = Except.error "IndexError" :=
  ⟨fun data w h1 h2 h3 => ⟨scoresPure data w, calculate_utility_scores_ok data w h1 h2 h3⟩,
   by with_unfolding_all decide⟩

/-- Witness for the amended C3 statement: the mismatch fixture is accepted. -/
theorem no_shape_validation_witness :
    ∃ scores, calculate_utility_scores dMismatch defaultWeights = Except.ok scores :=
  no_shape_validation.1 dMismatch defaultWeights (by with_unfolding_all decide)
    (by with_unfolding_all decide) (by with_unfolding_all decide)

/-! ### C5 -/

/-- C5: the stability index is 1.0 exactly when the tipping-point list is
empty; otherwise it is `round3(marginStability × vulnerability)` (as
embedded in `assess_market_stability`), and it always lies in [0, 1]. -/
theorem stability_index_spec (scores : List (String × ℚ)) (tps : List TippingPoint) :
    0 ≤ assess_market_stability scores tps ∧
    assess_market_stability scores tps ≤ 1 ∧
    (assess_market_stability scores tps = 1 ↔ tps = []) := by
  by_cases h : tps = []
  · simp [assess_market_stability, h]
  · have hlen : 1 ≤ tps.length := List.length_pos.mpr h
    have hdef : assess_market_stability scores tps =
        roundTo 3
          ((if 2 ≤ (sortedDesc (scores.map Prod.snd)).length then
              min 1 (((sortedDesc (scores.map Prod.snd)).getD 0 0 -
                (sortedDesc (scores.map Prod.snd)).getD 1 0) / 10)
            else (1/2 : ℚ)) *
           max (1/10) (1 - (tps.length : ℚ) * (1/10))) := by
      simp only [assess_market_stability, if_neg h]
    have hst0 : 0 ≤ (if 2 ≤ (sortedDesc (scores.map Prod.snd)).length then
        min 1 (((sortedDesc (scores.map Prod.snd)).getD 0 0 -
          (sortedDesc (scores.map Prod.snd)).getD 1 0) / 10)
      else (1/2 : ℚ)) := by
      split
      · rename_i h2
        exact le_min (by norm_num)
          (div_nonneg (sub_nonneg.mpr (sortedDesc_head_ge h2)) (by norm_num))
      · norm_num
    have hst1 : (if 2 ≤ (sortedDesc (scores.map Prod.snd)).length then
        min 1 (((sortedDesc (scores.map Prod.snd)).getD 0 0 -
          (sortedDesc (scores.map Prod.snd)).getD 1 0) / 10)
      else (1/2 : ℚ)) ≤ 1 := by
      split
      · exact min_le_left _ _
      · norm_num
    have hvu0 : (0:ℚ) ≤ max (1/10) (1 - (tps.length : ℚ) * (1/10)) :=
      le_trans (by norm_num) (le_max_left _ _)
    have hvu1 : max (1/10) (1 - (tps.length : ℚ) * (1/10)) ≤ 9/10 := by
      apply max_le (by norm_num)
      have : (1:ℚ) ≤ (tps.length : ℚ) := by exact_mod_cast hlen
      linarith
    have hp0 : 0 ≤ (if 2 ≤ (sortedDesc (scores.map Prod.snd)).length then
        min 1 (((sortedDesc (scores.map Prod.snd)).getD 0 0 -
          (sortedDesc (scores.map Prod.snd)).getD 1 0) / 10)
      else (1/2 : ℚ)) * max (1/10) (1 - (tps.length : ℚ) * (1/10)) :=
      mul_nonneg hst0 hvu0
    have hp1 : (if 2 ≤ (sortedDesc (scores.map Prod.snd)).length then
        min 1 (((sortedDesc (scores.map Prod.snd)).getD 0 0 -
          (sortedDesc (scores.map Prod.snd)).getD 1 0) / 10)
      else (1/2 : ℚ)) * max (1/10) (1 - (tps.length : ℚ) * (1/10)) ≤ 9/10 := by
      calc _ ≤ 1 * (9/10 : ℚ) := mul_le_mul hst1 hvu1 hvu0 (by norm_num)
        _ = 9/10 := by norm_num
    rw [hdef]
    have hA0 : 0 ≤ roundTo 3
        ((if 2 ≤ (sortedDesc (scores.map Prod.snd)).length then
            min 1 (((sortedDesc (scores.map Prod.snd)).getD 0 0 -
              (sortedDesc (scores.map Prod.snd)).getD 1 0) / 10)
          else (1/2 : ℚ)) * max (1/10) (1 - (tps.length : ℚ) * (1/10))) :=
      roundTo_nonneg 3 hp0
    have hA9 : roundTo 3
        ((if 2 ≤ (sortedDesc (scores.map Prod.snd)).length then
            min 1 (((sortedDesc (scores.map Prod.snd)).getD 0 0 -
              (sortedDesc (scores.map Prod.snd)).getD 1 0) / 10)
          else (1/2 : ℚ)) * max (1/10) (1 - (tps.length : ℚ) * (1/10))) ≤ 9/10 := by
      have h900 := roundTo_le_of_le 3 900 (q := (if 2 ≤ (sortedDesc (scores.map Prod.snd)).length then
            min 1 (((sortedDesc (scores.map Prod.snd)).getD 0 0 -
              (sortedDesc (scores.map Prod.snd)).getD 1 0) / 10)
          else (1/2 : ℚ)) * max (1/10) (1 - (tps.length : ℚ) * (1/10))) (by push_cast; nlinarith)
      calc _ ≤ ((900 : ℤ) : ℚ) / 10 ^ 3 := h900
        _ = 9/10 := by norm_num
    exact ⟨hA0, le_trans hA9 (by norm_num),
      ⟨fun h1 => absurd (h1 ▸ hA9) (by norm_num), fun h1 => absurd h1 h⟩⟩

/-! ### C8 -/

/-- C8: per criterion with focal score `s` and best competitor score
`best`: a strength is recorded exactly when `s ≥ 8 ∧ s ≥ best`; a
weakness exactly when no strength was recorded, `s < best` and
`best − s ≥ 1`, with gap `best − s`; an investment (independently)
exactly when `s < 7 ∨ best − s ≥ 2`, with priority High/Medium/Low at
gap thresholds 3/2 and target score `min(10, best + 1)`; and at
`s = 5, best = 8` both a gap-3 weakness and a High investment arise. -/
theorem focal_classification_spec (crit : String) (s best : ℤ) :
    ((classifyStrength crit s best).isSome ↔ (8 ≤ s ∧ best ≤ s)) ∧
    ((classifyWeakness crit s best).isSome ↔
      (classifyStrength crit s best = none ∧ s < best ∧ 1 ≤ best - s)) ∧
    (∀ w, classifyWeakness crit s best = some w → w.gap = best - s) ∧
    ((classifyInvestment crit s best).isSome ↔ (s < 7 ∨ 2 ≤ best - s)) ∧
    (∀ r, classifyInvestment crit s best = some r →
      r.priority = (if 3 ≤ best - s then "High"
        else if 2 ≤ best - s then "Medium" else "Low") ∧
      r.targetScore = min 10 (best + 1)) ∧
    (∃ w, classifyWeakness crit 5 8 = some w ∧ w.gap = 3) ∧
    (∃ r, classifyInvestment crit 5 8 = some r ∧ r.priority = "High") := by
  refine ⟨?_, ?_, ?_, ?_, ?_, ?_, ?_⟩
  · by_cases hS : 8 ≤ s ∧ best ≤ s <;> simp [classifyStrength, hS]
  · by_cases hS : 8 ≤ s ∧ best ≤ s
    · have h1 : ¬(¬(8 ≤ s ∧ best ≤ s) ∧ s < best ∧ 1 ≤ best - s) := by tauto
      simp [classifyWeakness, classifyStrength, hS, h1]
    · by_cases hR : s < best ∧ 1 ≤ best - s
      · simp [classifyWeakness, classifyStrength, hS, hR]
      · have h1 : ¬(¬(8 ≤ s ∧ best ≤ s) ∧ s < best ∧ 1 ≤ best - s) := by tauto
        simp [classifyWeakness, classifyStrength, hS, h1]
  · intro w hw
    unfold classifyWeakness at hw
    split at hw
    · injection hw with hw'
      rw [← hw']
    · cases hw
  · by_cases hI : s < 7 ∨ 2 ≤ best - s <;> simp [classifyInvestment, hI]
  · intro r hr
    unfold classifyInvestment at hr
    split at hr
    · injection hr with hr'
      rw [← hr']
      constructor
      · show (if 3 ≤ max 0 (best - s) then "High"
          else if 2 ≤ max 0 (best - s) then "Medium" else "Low") = _
        rcases le_or_lt 0 (best - s) with h0 | h0
        · rw [max_eq_right h0]
        · rw [max_eq_left (le_of_lt h0)]
          have h3 : ¬ (3:ℤ) ≤ 0 := by omega
          have h2 : ¬ (2:ℤ) ≤ 0 := by omega
          have h3' : ¬ 3 ≤ best - s := by omega
          have h2' : ¬ 2 ≤ best - s := by omega
          rw [if_neg h3, if_neg h2, if_neg h3', if_neg h2']
      · rfl
    · cases hr
  · refine ⟨⟨strLower crit, 5, 8, 8 - 5, "Competitors outscore you by " ++
        toString ((8:ℤ) - 5) ++ " points in " ++ strLower crit ++
        ". Consider improvements."⟩, ?_, by
          show (8:ℤ) - 5 = 3
          decide⟩
    unfold classifyWeakness
    rw [if_pos (show ¬((8:ℤ) ≤ 5 ∧ (8:ℤ) ≤ 5) ∧ (5:ℤ) < 8 ∧ 1 ≤ (8:ℤ) - 5 by omega)]
  · refine ⟨⟨strLower crit, 5, min 10 ((8:ℤ) + 1),
        (if 3 ≤ max 0 ((8:ℤ) - 5) then "High"
         else if 2 ≤ max 0 ((8:ℤ) - 5) then "Medium" else "Low"),
        "Invest in " ++ strLower crit ++ " to close the competitive gap"⟩, ?_,
      by
        show (if 3 ≤ max 0 ((8:ℤ) - 5) then "High"
          else if 2 ≤ max 0 ((8:ℤ) - 5) then "Medium" else "Low") = "High"
        with_unfolding_all decide⟩
    unfold classifyInvestment
    rw [if_pos (show (5:ℤ) < 7 ∨ 2 ≤ (8:ℤ) - 5 by omega)]

/-! ### Machinery for the tipping-point search (C4, C10) -/

theorem forall₂_mem_left {α β : Type} {R : α → β → Prop} {l : List α} {ys : List β}
    (h : List.Forall₂ R l ys) {x : α} (hx : x ∈ l) : ∃ y ∈ ys, R x y := by
  induction h with
  | nil => cases hx
  | cons hr ht ih =>
    rcases List.mem_cons.mp hx with rfl | hx'
    · exact ⟨_, by simp, hr⟩
    · rcases ih hx' with ⟨y, hy, hR⟩
      exact ⟨y, by simp [hy], hR⟩

theorem forall₂_mem_right {α β : Type} {R : α → β → Prop} {l : List α} {ys : List β}
    (h : List.Forall₂ R l ys) {y : β} (hy : y ∈ ys) : ∃ x ∈ l, R x y := by
  induction h with
  | nil => cases hy
  | cons hr ht ih =>
    rcases List.mem_cons.mp hy with rfl | hy'
    · exact ⟨_, by simp, hr⟩
    · rcases ih hy' with ⟨x, hx, hR⟩
      exact ⟨x, by simp [hx], hR⟩

theorem tpTrial_eval {data : MatrixData} {w : WeightSet} {base : List (String × ℚ)}
    {leader : String} {c : Criterion} {d : ℚ} {tw : WeightSet} {ns : List (String × ℚ)}
    {nl : String}
    (htw : tpPerturbed w c d = Except.ok tw)
    (hns : calculate_utility_scores data tw = Except.ok ns)
    (hnl : argmaxKey ns = Except.ok nl) :
    tpTrial data w base leader c d =
      Except.ok (if nl ≠ leader then some (tpRec w c d base leader nl ns) else none) := by
  unfold tpTrial
  rw [htw, except_bind_ok, hns, except_bind_ok, hnl, except_bind_ok]
  split
  · rfl
  · rfl

theorem tpTrial_some_inv {data : MatrixData} {w : WeightSet} {base : List (String × ℚ)}
    {leader : String} {c : Criterion} {d : ℚ} {tp : TippingPoint}
    (h : tpTrial data w base leader c d = Except.ok (some tp)) :
    ∃ tw ns nl, tpPerturbed w c d = Except.ok tw ∧
      calculate_utility_scores data tw = Except.ok ns ∧
      argmaxKey ns = Except.ok nl ∧ nl ≠ leader ∧
      tp = tpRec w c d base leader nl ns := by
  unfold tpTrial at h
  rcases htw : tpPerturbed w c d with e | tw
  · rw [htw, except_bind_err] at h
    cases h
  · rw [htw, except_bind_ok] at h
    rcases hns : calculate_utility_scores data tw with e | ns
    · rw [hns, except_bind_err] at h
      cases h
    · rw [hns, except_bind_ok] at h
      rcases hnl : argmaxKey ns with e | nl
      · rw [hnl, except_bind_err] at h
        cases h
      · rw [hnl, except_bind_ok] at h
        by_cases hne : nl ≠ leader
        · rw [if_pos hne, except_pure_eq] at h
          injection h with h2
          injection h2 with h3
          exact ⟨tw, ns, nl, rfl, hns, hnl, hne, h3.symm⟩
        · rw [if_neg hne, except_pure_eq] at h
          injection h with h2
          exact Option.noConfusion h2

theorem find_tipping_points_ok_inv {data : MatrixData} {w : WeightSet}
    {tps : List TippingPoint} (h : find_tipping_points data w = Except.ok tps) :
    ∃ base leader opts, calculate_utility_scores data w = Except.ok base ∧
      argmaxKey base = Except.ok leader ∧
      tpGrid.mapM (fun cd => tpTrial data w base leader cd.1 cd.2) = Except.ok opts ∧
      tps = opts.filterMap id := by
  unfold find_tipping_points at h
  rcases hb : calculate_utility_scores data w with e | base
  · rw [hb, except_bind_err] at h
    cases h
  · rw [hb, except_bind_ok] at h
    rcases hl : argmaxKey base with e | leader
    · rw [hl, except_bind_err] at h
      cases h
    · rw [hl, except_bind_ok] at h
      rcases hm : tpGrid.mapM (fun cd => tpTrial data w base leader cd.1 cd.2) with e | opts
      · rw [hm, except_bind_err] at h
        cases h
      · rw [hm, except_bind_ok, except_pure_eq] at h
        injection h with h2
        exact ⟨base, leader, opts, rfl, hl, hm, h2.symm⟩

/-! ### C10 -/

/-- C10: every emitted tipping point's `newWeight` field is
`round(max(0.01, baseline weight + delta), 3)` — the clamped weight
BEFORE renormalization (the local `new_weight` the source rounds), for
the criterion/delta recorded in the same record. -/
theorem tipping_newWeight_pre_renormalization (data : MatrixData) (w : WeightSet)
    (tps : List TippingPoint) (h : find_tipping_points data w = Except.ok tps) :
    ∀ tp ∈ tps, ∃ c d, (c, d) ∈ tpGrid ∧ tp.criterion = c.pyName ∧
      tp.weightChange = d ∧
      tp.newWeight = roundTo 3 (max (1/100) (w.getW c + d)) := by
  intro tp htp
  rcases find_tipping_points_ok_inv h with ⟨base, leader, opts, hb, hl, hm, rfl⟩
  rcases List.mem_filterMap.mp htp with ⟨o, ho, hoe⟩
  have hsome : some tp ∈ opts := by
    rw [show o = some tp from hoe] at ho
    exact ho
  rcases forall₂_mem_right (mapM_except_ok_inv hm) hsome with ⟨cd, hcd, htrial⟩
  rcases tpTrial_some_inv htrial with ⟨tw, ns, nl, _, _, _, hne, rfl⟩
  exact ⟨cd.1, cd.2, by simpa using hcd, rfl, rfl, rfl⟩

/-- The tipping points of the `dFlip` fixture under the default weights. -/
def tpsFlip : List TippingPoint :=
  [⟨"fuel", -(3/20), 3/20, "Alpha", "Beta", -(1/50),
     "Fuel importance shifts market leadership"⟩,
   ⟨"fuel", -(1/10), 1/5, "Alpha", "Beta", -(9/100),
     "Fuel importance shifts market leadership"⟩,
   ⟨"safety", 1/10, 7/20, "Alpha", "Beta", 7/100,
     "Safety importance shifts market leadership"⟩,
   ⟨"safety", 3/20, 2/5, "Alpha", "Beta", 19/100,
     "Safety importance shifts market leadership"⟩]

/-- The third record of the `dFlip` run (the safety +0.10 flip). -/
def tpWit : TippingPoint :=
  ⟨"safety", 1/10, 7/20, "Alpha", "Beta", 7/100,
    "Safety importance shifts market leadership"⟩

/-- Witness for C10 at one concrete record of the `dFlip` run. -/
theorem tipping_newWeight_pre_renormalization_witness :
    ∃ c d, (c, d) ∈ tpGrid ∧ tpWit.criterion = c.pyName ∧
      tpWit.weightChange = d ∧
      tpWit.newWeight = roundTo 3 (max (1/100) (defaultWeights.getW c + d)) :=
  tipping_newWeight_pre_renormalization dFlip defaultWeights tpsFlip
    (by with_unfolding_all decide) tpWit (by with_unfolding_all decide)

/-! ### C4 -/

/-- C4: for every `(criterion, delta)` trial of the grid, the trial's
record is emitted iff the perturbed leader differs from the baseline
leader; and every emitted record is the record of such a flipped trial,
whose `scoreChange` is the new leader's perturbed score minus the
baseline leader's baseline score, rounded to 2 decimals. -/
theorem tipping_point_iff (data : MatrixData) (w : WeightSet)
    (tps : List TippingPoint) (base : List (String × ℚ)) (leader : String)
    (hb : calculate_utility_scores data w = Except.ok base)
    (hl : argmaxKey base = Except.ok leader)
    (h : find_tipping_points data w = Except.ok tps)
    (c : Criterion) (d : ℚ) (hcd : (c, d) ∈ tpGrid)
    (tw : WeightSet) (htw : tpPerturbed w c d = Except.ok tw)
    (ns : List (String × ℚ)) (hns : calculate_utility_scores data tw = Except.ok ns)
    (nl : String) (hnl : argmaxKey ns = Except.ok nl) :
    (tpRec w c d base leader nl ns ∈ tps ↔ nl ≠ leader) ∧
    (tpRec w c d base leader nl ns).scoreChange =
      roundTo 2 (lookupD ns nl - lookupD base leader) ∧
    (∀ tp ∈ tps, ∃ cc dd ns2 nl2, (cc, dd) ∈ tpGrid ∧ nl2 ≠ leader ∧
      tp = tpRec w cc dd base leader nl2 ns2 ∧
      tp.scoreChange = roundTo 2 (lookupD ns2 nl2 - lookupD base leader)) := by
  rcases find_tipping_points_ok_inv h with ⟨base2, leader2, opts, hb2, hl2, hm, rfl⟩
  have hbeq : base2 = base := by
    injection hb2.symm.trans hb
  rw [hbeq] at hl2 hm
  have hleq : leader2 = leader := by
    injection hl2.symm.trans hl
  rw [hleq] at hm
  have hinv : ∀ tp ∈ opts.filterMap id, ∃ cc dd ns2 nl2, (cc, dd) ∈ tpGrid ∧
      nl2 ≠ leader ∧ tp = tpRec w cc dd base leader nl2 ns2 ∧
      tp.scoreChange = roundTo 2 (lookupD ns2 nl2 - lookupD base leader) := by
    intro tp htp
    rcases List.mem_filterMap.mp htp with ⟨o, ho, hoe⟩
    have hsome : some tp ∈ opts := by
      rw [show o = some tp from hoe] at ho
      exact ho
    rcases forall₂_mem_right (mapM_except_ok_inv hm) hsome with ⟨cd, hcdm, htrial⟩
    rcases tpTrial_some_inv htrial with ⟨tw2, ns2, nl2, _, _, _, hne2, heq⟩
    refine ⟨cd.1, cd.2, ns2, nl2, by simpa using hcdm, hne2, heq, ?_⟩
    rw [heq]
    rfl
  refine ⟨⟨?_, ?_⟩, rfl, hinv⟩
  · intro hmem
    rcases hinv _ hmem with ⟨cc, dd, ns2, nl2, _, hne2, heq, _⟩
    have hnl2 : nl = nl2 := congrArg TippingPoint.newLeader heq
    rw [hnl2]
    exact hne2
  · intro hne
    have htr := @tpTrial_eval data w base leader c d tw ns nl htw hns hnl
    rw [if_pos hne] at htr
    rcases forall₂_mem_left (mapM_except_ok_inv hm) hcd with ⟨o, ho, htrial⟩
    have hoeq : o = some (tpRec w c d base leader nl ns) := by
      injection htrial.symm.trans htr
    rw [hoeq] at ho
    exact List.mem_filterMap.mpr ⟨some (tpRec w c d base leader nl ns), ho, rfl⟩

/-- The perturbed weight vector of the witnessed trial (safety, +0.10). -/
def twWit : WeightSet := ⟨3/11, 7/22, 2/11, 3/22, 1/11⟩

set_option maxRecDepth 16000 in
set_option maxHeartbeats 1000000 in
/-- Witness for C4: the concrete (safety, +0.10) trial of the `dFlip` run
flips the leader from Alpha to Beta, and its record is in the output. -/
theorem tipping_point_iff_witness :
    (tpRec defaultWeights Criterion.safety (1/10) [("Alpha", 31/5), ("Beta", 6)]
        "Alpha" "Beta" [("Alpha", 609/100), ("Beta", 627/100)] ∈ tpsFlip ↔
      "Beta" ≠ "Alpha") ∧
    (tpRec defaultWeights Criterion.safety (1/10) [("Alpha", 31/5), ("Beta", 6)]
        "Alpha" "Beta" [("Alpha", 609/100), ("Beta", 627/100)]).scoreChange =
      roundTo 2 (lookupD [("Alpha", 609/100), ("Beta", 627/100)] "Beta" -
        lookupD [("Alpha", 31/5), ("Beta", 6)] "Alpha") ∧
    (∀ tp ∈ tpsFlip, ∃ cc dd ns2 nl2, (cc, dd) ∈ tpGrid ∧ nl2 ≠ "Alpha" ∧
      tp = tpRec defaultWeights cc dd [("Alpha", 31/5), ("Beta", 6)] "Alpha" nl2 ns2 ∧
      tp.scoreChange = roundTo 2 (lookupD ns2 nl2 -
        lookupD [("Alpha", 31/5), ("Beta", 6)] "Alpha")) :=
  tipping_point_iff dFlip defaultWeights tpsFlip [("Alpha", 31/5), ("Beta", 6)] "Alpha"
    (by with_unfolding_all decide) (by with_unfolding_all decide)
    (by with_unfolding_all decide) Criterion.safety (1/10)
    (by with_unfolding_all decide) twWit (by with_unfolding_all decide)
    [("Alpha", 609/100), ("Beta", 627/100)] (by with_unfolding_all decide)
    "Beta" (by with_unfolding_all decide)

/-- A concrete weakness record for the C8 witness. -/
def wLit : WeaknessArea :=
  ⟨"fuel", 5, 8, 3, "Competitors outscore you by 3 points in fuel. Consider improvements."⟩

/-- A concrete investment record for the C8 witness. -/
def iLit : InvestmentArea :=
  ⟨"fuel", 5, 9, "High", "Invest in fuel to close the competitive gap"⟩

/-- Witness for C8 at a concrete criterion and scores. -/
theorem focal_classification_witness :
    wLit.gap = 8 - 5 ∧
    (iLit.priority = (if (3:ℤ) ≤ 8 - 5 then "High"
        else if (2:ℤ) ≤ 8 - 5 then "Medium" else "Low") ∧
      iLit.targetScore = min 10 (8 + 1)) :=
  ⟨(focal_classification_spec "fuel" 5 8).2.2.1 wLit (by with_unfolding_all decide),
   (focal_classification_spec "fuel" 5 8).2.2.2.2.1 iLit (by with_unfolding_all decide)⟩

/-! ### C7 -/

theorem foldl_max_mem (x : ℚ) (l : List ℚ) : l.foldl max x ∈ x :: l := by
  induction l generalizing x with
  | nil => simp
  | cons y t ih =>
    have h := ih (max x y)
    rcases List.mem_cons.mp h with he | ht
    · show List.foldl max (max x y) t ∈ x :: y :: t
      rcases max_choice x y with h1 | h1 <;> rw [he, h1] <;> simp
    · show List.foldl max (max x y) t ∈ x :: y :: t
      exact List.mem_cons.mpr (Or.inr (List.mem_cons.mpr (Or.inr ht)))

theorem sum_map_sub {α : Type} (l : List α) (f g : α → ℚ) :
    (l.map (fun x => f x - g x)).sum = (l.map f).sum - (l.map g).sum := by
  induction l with
  | nil => simp
  | cons x t ih =>
    simp only [List.map_cons, List.sum_cons, ih]
    ring

theorem abs_sum_le_sum_abs_list (l : List ℚ) : |l.sum| ≤ (l.map abs).sum := by
  induction l with
  | nil => simp
  | cons x t ih =>
    simp only [List.sum_cons, List.map_cons]
    calc |x + t.sum| ≤ |x| + |t.sum| := abs_add _ _
      _ ≤ |x| + (t.map abs).sum := by linarith

theorem sum_map_div_mul (l : List ℚ) (S c : ℚ) :
    (l.map (fun x => x / S * c)).sum = l.sum / S * c := by
  induction l with
  | nil => simp
  | cons x t ih => simp [ih, add_div, add_mul]

theorem round1_sum_bound (l : List ℚ) :
    |(l.map (fun x => roundTo 1 x)).sum - l.sum| ≤ (l.length : ℚ) * (1/20) := by
  have h1 : (l.map (fun x => roundTo 1 x)).sum - l.sum =
      (l.map (fun x => roundTo 1 x - x)).sum := by
    rw [sum_map_sub l (fun x => roundTo 1 x) (fun x => x)]
    simp
  rw [h1]
  calc |(l.map (fun x => roundTo 1 x - x)).sum|
      ≤ ((l.map (fun x => roundTo 1 x - x)).map abs).sum := abs_sum_le_sum_abs_list _
    _ ≤ ((l.map (fun x => roundTo 1 x - x)).map abs).length • ((1:ℚ)/20) := by
        apply List.sum_le_card_nsmul
        intro x hx
        rcases List.mem_map.mp hx with ⟨y, hy, rfl⟩
        rcases List.mem_map.mp hy with ⟨z, _, rfl⟩
        have h := abs_roundTo_sub 1 z
        calc |roundTo 1 z - z| ≤ 1 / (2 * 10 ^ 1) := h
          _ ≤ 1/20 := by norm_num
    _ = (l.length : ℚ) * (1/20) := by
        simp [nsmul_eq_mul]

/-- C7: the market-share map (softmax with max-shift, scaled to percent,
rounded to 1 decimal) has non-negative entries, and its entries sum to
100 within 0.1 × the number of alternatives — for any abstraction `E` of
the float exponential that is non-negative and positive at 0. -/
theorem market_share_spec (E : ℚ → ℚ) (hE0 : ∀ x, 0 ≤ E x) (hE1 : 0 < E 0)
    (scores : List (String × ℚ)) (hne : scores ≠ [])
    (shares : List (String × ℚ))
    (hms : calculate_market_share E scores = Except.ok shares) :
    (∀ p ∈ shares, 0 ≤ p.2) ∧
    |(shares.map Prod.snd).sum - 100| ≤ (scores.length : ℚ) / 10 := by
  rcases scores with _ | ⟨s, ss⟩
  · exact absurd rfl hne
  unfold calculate_market_share at hms
  have hmax : maxValE ((s :: ss).map Prod.snd) =
      Except.ok ((ss.map Prod.snd).foldl max s.2) := rfl
  rw [hmax, except_bind_ok, except_pure_eq] at hms
  injection hms with hsh
  rw [← hsh]
  obtain ⟨m, hmdef⟩ : ∃ m, (ss.map Prod.snd).foldl max s.2 = m := ⟨_, rfl⟩
  rw [hmdef]
  obtain ⟨T, hTdef⟩ :
      ∃ T, ((((s :: ss).map (fun p => (p.1, E (p.2 - m)))).map Prod.snd)).sum = T :=
    ⟨_, rfl⟩
  rw [hTdef]
  have hTeq : ((s :: ss).map (fun p => E (p.2 - m))).sum = T := by
    rw [← hTdef, List.map_map]
    rfl
  have hm' : ∃ p ∈ s :: ss, p.2 = m := by
    have h := foldl_max_mem s.2 (ss.map Prod.snd)
    rw [hmdef] at h
    rcases List.mem_cons.mp h with he | ht
    · exact ⟨s, by simp, he.symm⟩
    · rcases List.mem_map.mp ht with ⟨p, hp, hpe⟩
      exact ⟨p, by simp [hp], hpe⟩
  have hTpos : 0 < T := by
    rw [← hTeq]
    rcases hm' with ⟨p, hp, hpm⟩
    have hmem : E 0 ∈ (s :: ss).map (fun p => E (p.2 - m)) := by
      have h0 : E (p.2 - m) = E 0 := by rw [hpm, sub_self]
      rw [← h0]
      exact List.mem_map.mpr ⟨p, hp, rfl⟩
    calc (0:ℚ) < E 0 := hE1
      _ ≤ _ := List.single_le_sum (fun x hx => by
          rcases List.mem_map.mp hx with ⟨q, _, rfl⟩
          exact hE0 _) _ hmem
  constructor
  · intro p hp
    rcases List.mem_map.mp hp with ⟨q, hq, rfl⟩
    exact roundTo_nonneg 1
      (mul_nonneg (div_nonneg (by
          rcases List.mem_map.mp hq with ⟨r, _, rfl⟩
          exact hE0 _) (le_of_lt hTpos)) (by norm_num))
  · rw [List.map_map, List.map_map]
    have hcomp : (s :: ss).map ((Prod.snd ∘ (fun p => (p.1, roundTo 1 (p.2 / T * 100)))) ∘
        (fun p : String × ℚ => (p.1, E (p.2 - m)))) =
        ((s :: ss).map (fun p => E (p.2 - m) / T * 100)).map (fun x => roundTo 1 x) := by
      rw [List.map_map]
      rfl
    rw [hcomp]
    have hLsum : ((s :: ss).map (fun p => E (p.2 - m) / T * 100)).sum = 100 := by
      have h2 : (s :: ss).map (fun p => E (p.2 - m) / T * 100) =
          ((s :: ss).map (fun p => E (p.2 - m))).map (fun x => x / T * 100) := by
        rw [List.map_map]
        rfl
      rw [h2, sum_map_div_mul, hTeq, div_self (ne_of_gt hTpos), one_mul]
    have hb := round1_sum_bound ((s :: ss).map (fun p => E (p.2 - m) / T * 100))
    rw [hLsum] at hb
    have hlen : (((s :: ss)).map (fun p => E (p.2 - m) / T * 100)).length =
        (s :: ss).length := by simp
    rw [hlen] at hb
    calc |(((s :: ss).map (fun p => E (p.2 - m) / T * 100)).map
          (fun x => roundTo 1 x)).sum - 100| ≤ ((s :: ss).length : ℚ) * (1/20) := hb
      _ ≤ ((s :: ss).length : ℚ) / 10 := by
          have hn : (0:ℚ) ≤ ((s :: ss).length : ℚ) := by positivity
          linarith

/-- Witness for C7 at a concrete two-alternative score map with the
constant abstraction of `exp`. -/
theorem market_share_spec_witness :
    (∀ p ∈ [("A", (50:ℚ)), ("B", (50:ℚ))], 0 ≤ p.2) ∧
    |([("A", (50:ℚ)), ("B", (50:ℚ))].map Prod.snd).sum - 100| ≤
      (([("A", (7:ℚ)), ("B", (5:ℚ))].length : ℚ)) / 10 :=
  market_share_spec (fun _ => 1) (fun _ => by norm_num) (by norm_num)
    [("A", 7), ("B", 5)] (by simp) [("A", 50), ("B", 50)]
    (by with_unfolding_all decide)

/-! ### C9 -/

/-- The rounded average criterion gap between rows `i` and `j`, exactly as
`calculate_competitive_gaps` computes it. -/
def gapVal (data : MatrixData) (i j : ℕ) : ℚ :=
  roundTo 2 (((List.range data.cols).foldl
    (fun t k => t + ((pay data i k : ℚ) - (pay data j k : ℚ))) 0) / (data.cols : ℚ))

/-- The inner gap dict for row `i`, as a pure function. -/
def gapsInner (data : MatrixData) (i : ℕ) : List (String × ℚ) :=
  (List.range data.rowLabels.length).filterMap (fun j =>
    if data.rowLabels.getD i "" ≠ data.rowLabels.getD j "" then
      some (data.rowLabels.getD j "", gapVal data i j)
    else none)

/-- The whole gap matrix, as a pure function. -/
def gapsPure (data : MatrixData) : List (String × List (String × ℚ)) :=
  (List.range data.rowLabels.length).map
    (fun i => (data.rowLabels.getD i "", gapsInner data i))

theorem getPay_ok {data : MatrixData} {i k : ℕ}
    (hlen : data.rowLabels.length ≤ data.payoffs.length)
    (hrow : ∀ row ∈ data.payoffs, data.cols ≤ row.length)
    (hi : i < data.rowLabels.length) (hk : k < data.cols) :
    getPay data i k = Except.ok (pay data i k) := by
  have hip : i < data.payoffs.length := lt_of_lt_of_le hi hlen
  have hpay : data.payoffs.get? i = some (data.payoffs.getD i []) := by
    simp [List.getD_eq_getElem?_getD, List.getElem?_eq_getElem hip]
  have hmem : data.payoffs.getD i [] ∈ data.payoffs := by
    simp only [List.getD_eq_getElem?_getD, List.getElem?_eq_getElem hip, Option.getD_some]
    exact List.getElem_mem hip
  have hkr : k < (data.payoffs.getD i []).length := lt_of_lt_of_le hk (hrow _ hmem)
  have hgen : ∀ (r : List ℤ), k < r.length → r.get? k = some (r.getD k 0) := by
    intro r hr
    simp [List.getD_eq_getElem?_getD, List.getElem?_eq_getElem hr]
  have hrk := hgen _ hkr
  unfold getPay pay
  rw [hpay]
  dsimp only
  rw [hrk]

theorem foldl_ite_append_eq_filterMap {α β : Type} (p : α → Prop) [DecidablePred p]
    (v : α → β) (l : List α) :
    l.foldl (fun acc x => if p x then acc ++ [v x] else acc) [] =
      l.filterMap (fun x => if p x then some (v x) else none) := by
  suffices h : ∀ acc : List β, l.foldl (fun acc x => if p x then acc ++ [v x] else acc) acc =
      acc ++ l.filterMap (fun x => if p x then some (v x) else none) by
    simpa using h []
  induction l with
  | nil => simp
  | cons x t ih =>
    intro acc
    by_cases hx : p x
    · simp only [List.foldl_cons, if_pos hx, List.filterMap_cons, ih]
      simp
    · simp only [List.foldl_cons, if_neg hx, List.filterMap_cons, ih]

theorem calculate_competitive_gaps_ok (data : MatrixData)
    (hlen : data.rowLabels.length ≤ data.payoffs.length)
    (hrow : ∀ row ∈ data.payoffs, data.cols ≤ row.length)
    (hc : 0 < data.cols) :
    calculate_competitive_gaps data = Except.ok (gapsPure data) := by
  unfold calculate_competitive_gaps gapsPure
  apply mapM_except_ok
  intro i hi
  have hi' : i < data.rowLabels.length := List.mem_range.mp hi
  have hfold : (List.range data.rowLabels.length).foldlM (fun acc j => do
      if data.rowLabels.getD i "" ≠ data.rowLabels.getD j "" then
        if data.cols = 0 then Except.error "ZeroDivisionError"
        else do
          let s ← (List.range data.cols).foldlM (fun t k => do
            let a ← getPay data i k
            let b ← getPay data j k
            pure (t + ((a : ℚ) - (b : ℚ)))) (0 : ℚ)
          pure (acc ++ [(data.rowLabels.getD j "", roundTo 2 (s / (data.cols : ℚ)))])
      else pure acc) [] = Except.ok
        ((List.range data.rowLabels.length).foldl (fun acc j =>
          if data.rowLabels.getD i "" ≠ data.rowLabels.getD j "" then
            acc ++ [(data.rowLabels.getD j "", gapVal data i j)]
          else acc) []) := by
    apply foldlM_except_ok
    intro acc j hj
    have hj' : j < data.rowLabels.length := List.mem_range.mp hj
    by_cases hij : data.rowLabels.getD i "" ≠ data.rowLabels.getD j ""
    · rw [if_pos hij, if_pos hij, if_neg (Nat.pos_iff_ne_zero.mp hc)]
      have hs : (List.range data.cols).foldlM (fun t k => do
          let a ← getPay data i k
          let b ← getPay data j k
          pure (t + ((a : ℚ) - (b : ℚ)))) (0 : ℚ) = Except.ok
            ((List.range data.cols).foldl
              (fun t k => t + ((pay data i k : ℚ) - (pay data j k : ℚ))) 0) := by
        apply foldlM_except_ok
        intro t k hk
        have hk' : k < data.cols := List.mem_range.mp hk
        rw [getPay_ok hlen hrow hi' hk', except_bind_ok,
          getPay_ok hlen hrow hj' hk', except_bind_ok]
        rfl
      rw [hs, except_bind_ok]
      rfl
    · rw [if_neg hij, if_neg hij]
      rfl
  rw [hfold, except_bind_ok]
  have hinner : (List.range data.rowLabels.length).foldl (fun acc j =>
      if data.rowLabels.getD i "" ≠ data.rowLabels.getD j "" then
        acc ++ [(data.rowLabels.getD j "", gapVal data i j)]
      else acc) [] = gapsInner data i :=
    foldl_ite_append_eq_filterMap _ _ _
  rw [hinner]
  rfl

theorem foldl_add_eq_sum (h : ℕ → ℚ) (l : List ℕ) (acc : ℚ) :
    l.foldl (fun t k => t + h k) acc = acc + (l.map h).sum := by
  induction l generalizing acc with
  | nil => simp
  | cons x t ih => simp [ih, add_assoc]

theorem gapVal_antisymm (data : MatrixData) (i j : ℕ) :
    gapVal data i j = - gapVal data j i := by
  unfold gapVal
  have h1 := foldl_add_eq_sum (fun k => ((pay data i k : ℚ) - (pay data j k : ℚ)))
    (List.range data.cols) 0
  have h2 := foldl_add_eq_sum (fun k => ((pay data j k : ℚ) - (pay data i k : ℚ)))
    (List.range data.cols) 0
  rw [h1, h2, zero_add, zero_add, sum_map_sub, sum_map_sub]
  rw [show (((List.range data.cols).map (fun k => (pay data j k : ℚ))).sum -
      ((List.range data.cols).map (fun k => (pay data i k : ℚ))).sum) / (data.cols : ℚ) =
    -((((List.range data.cols).map (fun k => (pay data i k : ℚ))).sum -
      ((List.range data.cols).map (fun k => (pay data j k : ℚ))).sum) / (data.cols : ℚ))
    from by ring]
  rw [roundTo_neg, neg_neg]

/-- C9: over a well-formed matrix with distinct row labels, the gap matrix
has an entry for every ordered pair of distinct alternatives, whose value
is the criterion-averaged payoff difference rounded to 2 decimals
(`gapVal`); it is antisymmetric, and rows carry no self-entries. -/
theorem competitive_gaps_spec (data : MatrixData) (g : List (String × List (String × ℚ)))
    (hlen : data.rowLabels.length ≤ data.payoffs.length)
    (hrow : ∀ row ∈ data.payoffs, data.cols ≤ row.length)
    (hc : 0 < data.cols)
    (hnd : data.rowLabels.Nodup)
    (hg : calculate_competitive_gaps data = Except.ok g)
    (i j : ℕ) (hi : i < data.rowLabels.length) (hj : j < data.rowLabels.length)
    (hij : i ≠ j) :
    ∃ inner, (data.rowLabels.getD i "", inner) ∈ g ∧
      (data.rowLabels.getD j "", gapVal data i j) ∈ inner ∧
      gapVal data i j = - gapVal data j i ∧
      ∀ x, (data.rowLabels.getD i "", x) ∉ inner := by
  have hg2 := calculate_competitive_gaps_ok data hlen hrow hc
  have hge : g = gapsPure data := by
    injection hg.symm.trans hg2
  subst hge
  have hgetDi : data.rowLabels.getD i "" = data.rowLabels[i] := by
    simp [List.getD_eq_getElem?_getD, List.getElem?_eq_getElem hi]
  have hgetDj : data.rowLabels.getD j "" = data.rowLabels[j] := by
    simp [List.getD_eq_getElem?_getD, List.getElem?_eq_getElem hj]
  have hne : data.rowLabels.getD i "" ≠ data.rowLabels.getD j "" := by
    rw [hgetDi, hgetDj]
    intro hcon
    exact hij ((hnd.getElem_inj_iff).mp hcon)
  refine ⟨gapsInner data i, ?_, ?_, gapVal_antisymm data i j, ?_⟩
  · exact List.mem_map.mpr ⟨i, List.mem_range.mpr hi, rfl⟩
  · apply List.mem_filterMap.mpr
    exact ⟨j, List.mem_range.mpr hj, by rw [if_pos hne]⟩
  · intro x hx
    rcases List.mem_filterMap.mp hx with ⟨j2, hj2, hsome⟩
    split at hsome
    · rename_i hcond
      injection hsome with hpair
      exact hcond (congrArg Prod.fst hpair).symm
    · cases hsome

/-- Witness for C9 at the `dMismatch` fixture (two distinct rows, two
declared criteria): gap(A,B) = −3 and gap(B,A) = 3. -/
theorem competitive_gaps_spec_witness :
    ∃ inner, (dMismatch.rowLabels.getD 0 "", inner) ∈
        [("A", [("B", (-3 : ℚ))]), ("B", [("A", (3 : ℚ))])] ∧
      (dMismatch.rowLabels.getD 1 "", gapVal dMismatch 0 1) ∈ inner ∧
      gapVal dMismatch 0 1 = - gapVal dMismatch 1 0 ∧
      ∀ x, (dMismatch.rowLabels.getD 0 "", x) ∉ inner :=
  competitive_gaps_spec dMismatch [("A", [("B", (-3 : ℚ))]), ("B", [("A", (3 : ℚ))])]
    (by with_unfolding_all decide) (by with_unfolding_all decide)
    (by with_unfolding_all decide) (by with_unfolding_all decide)
    (by with_unfolding_all decide) 0 1 (by with_unfolding_all decide)
    (by with_unfolding_all decide) (by with_unfolding_all decide)

end SensAnalysis
